import Mathlib

/-!
# Verification of the feed reconciliation and storage engine

A shallow embedding of the `reader` feed-aggregation backend and its
vendored `feedparser` front end, with theorems settling the specified
behavior of reconciliation, ordered entry listing, read/unread marking,
the exception taxonomy, and parser-path selection.

The exception rendering (`exceptions.py`) and the parser entry points
(`_vendor/feedparser/api.py`) are embedded directly from the source.
The reconciliation/storage engine itself (`Reader`) is only visible
through its test suite, so its operations are modelled from the
specification text, as indicated on each definition.
-/

namespace Reader

/-- Modelled from the spec: a stored Feed row.  Identity is the URL;
`title`, `link` and `updated` stay null until the first successful
reconciliation populates them (spec section 3). -/
structure Feed where
  url : String
  title : Option String
  link : Option String
  updated : Option Nat
deriving Repr, DecidableEq

/-- Modelled from the spec: a stored Entry row.  Identity is
(feed URL, entry id); `read` defaults to false at creation and is the
only attribute mutable outside reconciliation (spec section 3). -/
structure Entry where
  id : String
  title : Option String
  link : Option String
  updated : Option Nat
  read : Bool
deriving Repr, DecidableEq

/-- Modelled from the spec: the feed-metadata part of a parsed snapshot
handed to the Reconciler. -/
structure ParsedFeed where
  url : String
  title : Option String
  link : Option String
  updated : Option Nat
deriving Repr, DecidableEq

/-- Modelled from the spec: one entry snapshot in a parsed feed;
parsed entries carry no `read` flag. -/
structure ParsedEntry where
  id : String
  title : Option String
  link : Option String
  updated : Option Nat
deriving Repr, DecidableEq

/-- Modelled from the spec: an entry row together with the URL of its
parent feed (the composite identity). -/
structure StoredEntry where
  feedUrl : String
  entry : Entry
deriving Repr, DecidableEq

/-- Modelled from the spec: the durable store holds Feed rows and Entry
rows; all components access them only through the store API. -/
structure Store where
  feeds : List Feed
  entries : List StoredEntry
deriving Repr, DecidableEq

/-- Modelled from the spec: error taxonomy surfaced by store mutations. -/
inductive StoreErr where
  | feedExists (url : String)
  | feedNotFound (url : String)
  | entryNotFound (feedUrl : String) (id : String)
deriving Repr, DecidableEq

/-- Modelled from the spec: `add_feed(url)` inserts a Feed row with only
the URL populated if absent; fails with `FeedExistsError` if already
present (spec section 4.2). -/
def add_feed (s : Store) (url : String) : Except StoreErr Store :=
  if s.feeds.any (fun f => f.url == url) then
    .error (.feedExists url)
  else
    .ok { s with feeds := s.feeds ++ [⟨url, none, none, none⟩] }

/-- Modelled from the spec: `get_feed(url)` returns the current Feed
snapshot or a not-found signal (not an exception) when never added. -/
def get_feed (s : Store) (url : String) : Option Feed :=
  s.feeds.find? (fun f => f.url == url)

/-- Modelled from the spec: `get_feeds()` returns the stored Feed rows. -/
def get_feeds (s : Store) : List Feed :=
  s.feeds

/-- Modelled from the spec: whether an entry with the given composite
identity (feed URL, entry id) exists in the store. -/
def containsEntry (s : Store) (feedUrl id : String) : Bool :=
  s.entries.any (fun se => se.feedUrl == feedUrl && se.entry.id == id)

/-- Modelled from the spec: set the `read` flag of the (feedUrl, id)
entry to `b`, leaving every other row untouched. -/
def setRead (s : Store) (feedUrl id : String) (b : Bool) : Store :=
  { s with
    entries := s.entries.map (fun se =>
      if se.feedUrl == feedUrl && se.entry.id == id then
        { se with entry := { se.entry with read := b } }
      else se) }

/-- Modelled from the spec: `mark_as_read` sets `read` to true
unconditionally; fails with `EntryNotFoundError` if the (feed, entry)
pair does not exist (spec section 4.2). -/
def mark_as_read (s : Store) (feedUrl id : String) : Except StoreErr Store :=
  if containsEntry s feedUrl id then
    .ok (setRead s feedUrl id true)
  else
    .error (.entryNotFound feedUrl id)

/-- Modelled from the spec: `mark_as_unread` sets `read` to false
unconditionally; fails with `EntryNotFoundError` if the (feed, entry)
pair does not exist (spec section 4.2). -/
def mark_as_unread (s : Store) (feedUrl id : String) : Except StoreErr Store :=
  if containsEntry s feedUrl id then
    .ok (setRead s feedUrl id false)
  else
    .error (.entryNotFound feedUrl id)

/-- Modelled from the spec: the "strictly newer" comparison used by
reconciliation, a total order where a null stored timestamp is treated
as older than any non-null value and a null parsed timestamp never
triggers an update (spec section 4.1). -/
def newer (parsed stored : Option Nat) : Bool :=
  match parsed, stored with
  | none, _ => false
  | some _, none => true
  | some p, some st => st < p

/-- Modelled from the spec: the feed-level rule — the feed row (title,
link, updated) is overwritten only if `parsed.updated` is strictly
newer than `stored.updated` (spec section 4.1). -/
def updateFeedRow (stored : Feed) (parsed : ParsedFeed) : Feed :=
  if newer parsed.updated stored.updated then
    { stored with title := parsed.title, link := parsed.link, updated := parsed.updated }
  else
    stored

/-- Modelled from the spec: the entry-level rule — overwrite the stored
entry's content fields only if strictly newer; otherwise leave the
stored row (including its `read` flag) untouched (spec section 4.1). -/
def updateEntryRow (stored : Entry) (parsed : ParsedEntry) : Entry :=
  if newer parsed.updated stored.updated then
    { id := stored.id, title := parsed.title, link := parsed.link,
      updated := parsed.updated, read := stored.read }
  else
    stored

/-- Modelled from the spec: reconcile one parsed entry — insert verbatim
with `read = false` on first sight of the (feed, id) pair, otherwise
apply the entry-level rule to the stored row (spec section 4.1). -/
def reconcileEntry (s : Store) (feedUrl : String) (pe : ParsedEntry) : Store :=
  if containsEntry s feedUrl pe.id then
    { s with
      entries := s.entries.map (fun se =>
        if se.feedUrl == feedUrl && se.entry.id == pe.id then
          { se with entry := updateEntryRow se.entry pe }
        else se) }
  else
    { s with entries := s.entries ++ [⟨feedUrl, ⟨pe.id, pe.title, pe.link, pe.updated, false⟩⟩] }

/-- Modelled from the spec: `reconcile(feed_url, parsed_feed,
parsed_entries)` — apply the feed-level rule to the matching feed row,
then the entry-level rule per entry in the incoming snapshot; entries
absent from the snapshot are not deleted (spec section 4.1). -/
def reconcile (s : Store) (pf : ParsedFeed) (pes : List ParsedEntry) : Store :=
  let s1 : Store :=
    { s with feeds := s.feeds.map (fun f => if f.url == pf.url then updateFeedRow f pf else f) }
  pes.foldl (fun acc pe => reconcileEntry acc pf.url pe) s1

/-- Modelled from the spec: the sort key of a `(Feed, Entry)` pair.
`get_entries` is ordered by `(updated DESC, feed_url ASC, entry_id ASC)`;
the descending `updated` component is modelled by dualizing its order,
with a null `updated` below every non-null value (so it sorts last
under DESC), and ties broken lexicographically by feed URL then entry
id (spec section 4.2). -/
abbrev EntryKey := Lex (OrderDual (WithBot Nat) × Lex (String × String))

/-- Embed a nullable timestamp into `WithBot Nat` (null below all). -/
def obot : Option Nat → WithBot Nat
  | none => ⊥
  | some n => (n : WithBot Nat)

/-- The sort key of one `(Feed, Entry)` pair. -/
def toKey (p : Feed × Entry) : EntryKey :=
  toLex (OrderDual.toDual (obot p.2.updated), toLex (p.1.url, p.2.id))

/-- The total order on `(Feed, Entry)` pairs used by `get_entries`:
`(updated DESC, feed_url ASC, entry_id ASC)`. -/
def pairLe (a b : Feed × Entry) : Prop := toKey a ≤ toKey b

instance : DecidableRel pairLe := fun a b => by
  unfold pairLe; infer_instance

instance : IsTotal (Feed × Entry) pairLe :=
  ⟨fun a b => le_total (toKey a) (toKey b)⟩

instance : IsTrans (Feed × Entry) pairLe :=
  ⟨fun _ _ _ hab hbc => le_trans hab hbc⟩

/-- The strict version of the `get_entries` order: the key of `a` is
strictly below the key of `b`. -/
def pairLt (a b : Feed × Entry) : Prop := toKey a < toKey b

/-- Modelled from the spec: the `(Feed, Entry)` pairs held by the store:
each stored entry row joined with its parent feed row. -/
def Store.pairs (s : Store) : List (Feed × Entry) :=
  s.entries.filterMap (fun se => (get_feed s se.feedUrl).map (fun f => (f, se.entry)))

/-- The full ordered result of an unchunked `get_entries` query. -/
def sortedPairs (s : Store) : List (Feed × Entry) :=
  s.pairs.insertionSort pairLe

/-- Modelled from the spec: the cursor test — a fresh chunk query
resumes strictly after the last-returned key (spec section 4.2). -/
def afterKey : Option EntryKey → Feed × Entry → Bool
  | none, _ => true
  | some k, p => decide (k < toKey p)

/-- Modelled from the spec: one bounded chunk — a fresh query for the
ordered pairs strictly after the cursor, limited to `n` rows. -/
def getChunk (s : Store) (cur : Option EntryKey) (n : Nat) : List (Feed × Entry) :=
  ((sortedPairs s).filter (afterKey cur)).take n

/-- Modelled from the spec: chunked iteration — after returning one
chunk, the next is fetched with a fresh query resuming strictly after
the last-returned `(updated, feed_url, entry_id)` key; iteration stops
when a chunk comes back short (spec section 4.2).  `fuel` bounds the
recursion and is chosen large enough in `get_entries`. -/
def getEntriesChunked (s : Store) (n : Nat) (cur : Option EntryKey) (fuel : Nat) :
    List (Feed × Entry) :=
  match fuel with
  | 0 => []
  | fuel + 1 =>
    let c := getChunk s cur n
    if c.length < n then c
    else
      match c.getLast? with
      | none => []
      | some p => c ++ getEntriesChunked s n (some (toKey p)) fuel

/-- Modelled from the spec: `get_entries(chunk_size)` — a chunk size of
0 requests a single unchunked query; a positive chunk size paginates
internally as bounded chunks resumed by cursor (spec section 4.2). -/
def get_entries (s : Store) (chunkSize : Nat) : List (Feed × Entry) :=
  if chunkSize = 0 then sortedPairs s
  else getEntriesChunked s chunkSize none (s.pairs.length + 1)

/-- Modelled from the spec: store well-formedness — feed URLs are
unique, entry composite identities (feed URL, entry id) are unique, and
every entry's parent feed exists (spec section 3). -/
def Store.wf (s : Store) : Prop :=
  (s.feeds.map Feed.url).Nodup ∧
  (s.entries.map (fun se => (se.feedUrl, se.entry.id))).Nodup ∧
  ∀ se ∈ s.entries, (get_feed s se.feedUrl).isSome

instance (s : Store) : Decidable s.wf := by
  unfold Store.wf; infer_instance

/-- Modelled from the spec: the outcome the external parser collaborator
reports for one feed — a parsed snapshot, a "not modified" signal, or a
parse/fetch error (spec sections 4.3 and 6). -/
inductive ParseResult where
  | ok (pf : ParsedFeed) (pes : List ParsedEntry)
  | notModified
  | parseError (msg : String)
deriving Repr, DecidableEq

/-- Modelled from the spec: the per-feed outcome recorded by the update
orchestrator: success, not-modified, or error-with-cause. -/
inductive FeedOutcome where
  | updated
  | notModified
  | failed (msg : String)
deriving Repr, DecidableEq

/-- Modelled from the spec: `update_feeds()` iterates all stored feed
URLs, invokes the parser per feed, dispatches successes to the
Reconciler, records a per-feed outcome, and lets no feed's failure
abort the batch (spec section 4.3). -/
def update_feeds (s : Store) (parser : String → ParseResult) :
    Store × List (String × FeedOutcome) :=
  s.feeds.foldl
    (fun acc f =>
      match parser f.url with
      | .ok pf pes => (reconcile acc.1 pf pes, acc.2 ++ [(f.url, .updated)])
      | .notModified => (acc.1, acc.2 ++ [(f.url, .notModified)])
      | .parseError msg => (acc.1, acc.2 ++ [(f.url, .failed msg)]))
    (s, [])

/-- A concrete well-formed store with colliding `updated` values across
two feeds, plus a null `updated`, used to instantiate the listing
theorems at an explicit input. -/
def demoStore : Store :=
  { feeds := [⟨"a", some "Feed A", none, some 6⟩, ⟨"b", some "Feed B", none, some 5⟩],
    entries := [
      ⟨"a", ⟨"1", none, none, some 2, false⟩⟩,
      ⟨"a", ⟨"2", none, none, some 2, true⟩⟩,
      ⟨"b", ⟨"1", none, none, some 5, false⟩⟩,
      ⟨"b", ⟨"2", none, none, some 2, false⟩⟩,
      ⟨"b", ⟨"3", none, none, none, false⟩⟩] }

/-- The per-feed outcome determined by one parser result: success,
not-modified, or error-with-cause (spec section 4.3). -/
def outcomeOf : ParseResult → FeedOutcome
  | .ok _ _ => .updated
  | .notModified => .notModified
  | .parseError msg => .failed msg

end Reader

namespace Exceptions

/-! Embedded from `src/reader/exceptions.py`. -/

/-- A chained `__cause__`: its rendered type name
(`f'⁅module⁆.⁅qualname⁆'`, never empty for a real exception type) and
its `str()`. -/
structure Cause where
  typeName : String
  str : String
deriving Repr, DecidableEq

/-- Python `': '.join(parts)`. -/
def joinColon : List String → String
  | [] => ""
  | [x] => x
  | x :: y :: t => x ++ ": " ++ joinColon (y :: t)

/-- Python `filter(None, parts)`: drop the empty strings. -/
def dropEmpty (l : List String) : List String :=
  l.filter (fun p => p ≠ "")

/-- The apostrophe character, used by Python `repr` of a string. -/
def quoteChar : Char := Char.ofNat 39

/-- Python `repr` of a string, modelled without escaping: the string
wrapped in single quotes.  This agrees with CPython's `repr` exactly on
strings `repr` renders verbatim (see `reprPlain`); the containment
theorems below are guarded accordingly. -/
def pyRepr (s : String) : String :=
  String.singleton quoteChar ++ s ++ String.singleton quoteChar

/-- The strings CPython's `repr` renders verbatim between single
quotes: printable ASCII with no single quote (codepoint 39) and no
backslash (codepoint 92), so that `repr` performs no escaping and no
quote-selection. -/
def reprPlain (s : String) : Prop :=
  ∀ c ∈ s.data, 31 < c.toNat ∧ c.toNat < 127 ∧ c.toNat ≠ 39 ∧ c.toNat ≠ 92

instance (s : String) : Decidable (reprPlain s) := by
  unfold reprPlain
  exact List.decidableBAll _ s.data

/-- Python `repr` of a pair of such strings:
`(` ++ repr a ++ `, ` ++ repr b ++ `)`. -/
def pyReprPair (a b : String) : String :=
  "(" ++ pyRepr a ++ ", " ++ pyRepr b ++ ")"

/-- `_FancyExceptionBase`: the data `__str__` renders.  `classMessage`
is the class attribute `message`; `ctorMessage` the `__init__`
argument (`''` when not given; it overrides the class attribute only
when non-empty); `strAttr` the `_str` property; `cause` the chained
`__cause__`, if any. -/
structure Exc where
  classMessage : String
  ctorMessage : String
  strAttr : String
  cause : Option Cause
deriving Repr, DecidableEq

/-- The effective `message` attribute: `__init__` does
`if message: self.message = message`, else the class attribute shows. -/
def Exc.message (e : Exc) : String :=
  if e.ctorMessage ≠ "" then e.ctorMessage else e.classMessage

/-- `_cause_name`: `''` when there is no `__cause__`. -/
def Exc.causeName (e : Exc) : String :=
  match e.cause with
  | none => ""
  | some c => c.typeName

/-- `_cause_str`: `''` when there is no `__cause__`. -/
def Exc.causeStr (e : Exc) : String :=
  match e.cause with
  | none => ""
  | some c => c.str

/-- `_FancyExceptionBase.__str__`: join the non-empty parts
`[message, _str, cause name, cause str]` with `': '`. -/
def Exc.str (e : Exc) : String :=
  joinColon (dropEmpty [e.message, e.strAttr, e.causeName, e.causeStr])

/-- `FeedError(url, message='')`: `_str` is `repr(self.url)`; no class
`message`. -/
def FeedError (url msg : String) (cause : Option Cause) : Exc :=
  ⟨"", msg, pyRepr url, cause⟩

/-- `FeedExistsError`: class message `"feed exists"`. -/
def FeedExistsError (url msg : String) (cause : Option Cause) : Exc :=
  ⟨"feed exists", msg, pyRepr url, cause⟩

/-- `FeedNotFoundError`: class message `"no such feed"`. -/
def FeedNotFoundError (url msg : String) (cause : Option Cause) : Exc :=
  ⟨"no such feed", msg, pyRepr url, cause⟩

/-- `InvalidFeedURLError`: class message `"invalid feed URL"`. -/
def InvalidFeedURLError (url msg : String) (cause : Option Cause) : Exc :=
  ⟨"invalid feed URL", msg, pyRepr url, cause⟩

/-- `ParseError`: a `FeedError`; defines no class `message`, so it
inherits the empty default. -/
def ParseError (url msg : String) (cause : Option Cause) : Exc :=
  ⟨"", msg, pyRepr url, cause⟩

/-- `EntryError(feed_url, id, message='')`: `_str` is
`repr((self.feed_url, self.id))`; no class `message`. -/
def EntryError (feedUrl id msg : String) (cause : Option Cause) : Exc :=
  ⟨"", msg, pyReprPair feedUrl id, cause⟩

/-- `EntryExistsError`: class message `"entry exists"`. -/
def EntryExistsError (feedUrl id msg : String) (cause : Option Cause) : Exc :=
  ⟨"entry exists", msg, pyReprPair feedUrl id, cause⟩

/-- `EntryNotFoundError`: class message `"no such entry"`. -/
def EntryNotFoundError (feedUrl id msg : String) (cause : Option Cause) : Exc :=
  ⟨"no such entry", msg, pyReprPair feedUrl id, cause⟩

/-- `StorageError`: no `_str` override and no class message. -/
def StorageError (msg : String) (cause : Option Cause) : Exc :=
  ⟨"", msg, "", cause⟩

/-- `TagError._str`: `': '.join(repr(part) for part in resource_id + (key,))`. -/
def tagStr (resourceId : List String) (key : String) : String :=
  joinColon ((resourceId ++ [key]).map pyRepr)

/-- `TagError(key, resource_id, message='')`; no class message. -/
def TagError (key : String) (resourceId : List String) (msg : String)
    (cause : Option Cause) : Exc :=
  ⟨"", msg, tagStr resourceId key, cause⟩

/-- `TagNotFoundError`: class message `"no such tag"`. -/
def TagNotFoundError (key : String) (resourceId : List String) (msg : String)
    (cause : Option Cause) : Exc :=
  ⟨"no such tag", msg, tagStr resourceId key, cause⟩

/-- `big` contains `small` as a contiguous substring (stated on the
underlying character lists). -/
def strContains (big small : String) : Prop :=
  ∃ pre post : List Char, big.data = pre ++ small.data ++ post

/-- The property claimed of every public exception: its string form
includes a (non-empty) human-readable message. -/
def includesHumanMessage (e : Exc) : Prop :=
  e.message ≠ "" ∧ strContains e.str e.message

end Exceptions

namespace Feedparser

/-! Embedded from `src/reader/_vendor/feedparser/api.py`. -/

/-- The three parser back ends `_parse_file_inplace` can invoke. -/
inductive ParserPath where
  | json
  | strict
  | loose
deriving Repr, DecidableEq

/-- `_XML_AVAILABLE` is the module constant `True`. -/
def xmlAvailable : Bool := true

/-- The data `_parse_file_inplace` branches on: `result['content-type']`,
`result['encoding']` (empty when no encoding was confidently detected
by `convert_file_to_utf8`), and whether the strict/JSON parser
invocations raise (`xml.sax.SAXException` / any exception). -/
structure ParseFileInput where
  contentType : String
  encoding : String
  strictParseFails : Bool
  jsonParseFails : Bool
  failureExc : String
deriving Repr, DecidableEq

/-- `_parse_file_inplace`, reduced to its parser-selection skeleton:
which parser back ends run, in order, and whether the bozo flag is set
by this logic.  `use_json_parser` is `content-type == 'application/json'`;
`use_strict_parser` is `encoding and True or False`, forced to false
when `_XML_AVAILABLE` is false; the loose parser runs when the JSON
parser was not used and the strict parser was not used or failed. -/
def parseFileInplace (i : ParseFileInput) : List ParserPath × Bool :=
  let useJson : Bool := i.contentType == "application/json"
  let useStrict0 : Bool := i.encoding != ""
  let useStrict : Bool := if xmlAvailable then useStrict0 else false
  if useJson then
    ([.json], i.jsonParseFails)
  else if useStrict then
    if i.strictParseFails then ([.strict, .loose], true)
    else ([.strict], false)
  else
    ([.loose], false)

/-- What `_open_resource` did: raised `urllib.error.URLError`, or
produced a (seekable) stream whose content is given. -/
inductive OpenOutcome where
  | urlError (err : String)
  | opened (content : String)
deriving Repr, DecidableEq

/-- The fields of the `FeedParserDict` result that the embedding
tracks, plus the list of parser back ends that were invoked. -/
structure FPResult where
  bozo : Bool
  bozoException : Option String
  entries : List String
  feed : List (String × String)
  pathsInvoked : List ParserPath
deriving Repr, DecidableEq

/-- The feed/entry data produced by whichever parser back end ran
(abstract; the engine only consumes it). -/
structure ParserOutputs where
  feeddata : List (String × String)
  entries : List String
deriving Repr, DecidableEq

/-- `parse`: the result starts as `bozo=False, entries=[], feed={}`.
If `_open_resource` raises `URLError`, the result is updated with
`bozo=True` and the error as `bozo_exception` and returned.  Otherwise
one byte is read to test for empty input, and the initial result is
returned unchanged (no parser invoked) when the stream is empty; else
`_parse_file_inplace` fills in the parsed data. -/
def parse (source : OpenOutcome) (i : ParseFileInput) (out : ParserOutputs) : FPResult :=
  match source with
  | .urlError e =>
    { bozo := true, bozoException := some e, entries := [], feed := [], pathsInvoked := [] }
  | .opened content =>
    if content.isEmpty then
      { bozo := false, bozoException := none, entries := [], feed := [], pathsInvoked := [] }
    else
      let pb := parseFileInplace i
      { bozo := pb.2
        bozoException := if pb.2 then some i.failureExc else none
        entries := out.entries
        feed := out.feeddata
        pathsInvoked := pb.1 }

end Feedparser

/-! ## Theorems -/

namespace Reader

theorem newer_self (u : Option Nat) : newer u u = false := by
  cases u with
  | none => rfl
  | some n => simp [newer]

theorem updateFeedRow_url (f : Feed) (pf : ParsedFeed) :
    (updateFeedRow f pf).url = f.url := by
  unfold updateFeedRow
  split <;> rfl

theorem updateFeedRow_idem (f : Feed) (pf : ParsedFeed) :
    updateFeedRow (updateFeedRow f pf) pf = updateFeedRow f pf := by
  unfold updateFeedRow
  by_cases h : newer pf.updated f.updated = true
  · simp only [h, if_pos]
    simp [newer_self]
  · simp only [h]
    simp [h]

theorem reconcileEntry_feeds (s : Store) (u : String) (pe : ParsedEntry) :
    (reconcileEntry s u pe).feeds = s.feeds := by
  unfold reconcileEntry
  split <;> rfl

theorem foldl_reconcileEntry_feeds (pes : List ParsedEntry) :
    ∀ (s : Store) (u : String),
      (pes.foldl (fun acc pe => reconcileEntry acc u pe) s).feeds = s.feeds := by
  induction pes with
  | nil => intro s u; rfl
  | cons pe t ih =>
    intro s u
    rw [List.foldl_cons, ih, reconcileEntry_feeds]

theorem reconcile_feeds (s : Store) (pf : ParsedFeed) (pes : List ParsedEntry) :
    (reconcile s pf pes).feeds =
      s.feeds.map (fun f => if f.url == pf.url then updateFeedRow f pf else f) := by
  unfold reconcile
  rw [foldl_reconcileEntry_feeds]

theorem feedStep_idem (pf : ParsedFeed) (f : Feed) :
    (fun f => if f.url == pf.url then updateFeedRow f pf else f)
      ((fun f => if f.url == pf.url then updateFeedRow f pf else f) f) =
    (fun f => if f.url == pf.url then updateFeedRow f pf else f) f := by
  by_cases h : (f.url == pf.url) = true
  · simp only [h, if_pos, updateFeedRow_url, updateFeedRow_idem]
  · simp only [h]
    simp [h]

/-- Claim C2: the feed row is overwritten only if the incoming
`parsed.updated` is strictly newer than the stored one, where a null
stored `updated` is older than any non-null value and a null
`parsed.updated` never triggers an update; reconciling the same
snapshot a second time leaves the stored feed rows unchanged. -/
theorem feed_update_monotonic (stored : Feed) (pf : ParsedFeed)
    (s : Store) (pes : List ParsedEntry) :
    (updateFeedRow stored pf ≠ stored → newer pf.updated stored.updated = true)
    ∧ (∀ st, newer none st = false)
    ∧ (∀ u, newer (some u) none = true)
    ∧ (newer pf.updated stored.updated = false → updateFeedRow stored pf = stored)
    ∧ (reconcile (reconcile s pf pes) pf pes).feeds = (reconcile s pf pes).feeds := by
  refine ⟨?_, fun st => rfl, fun u => rfl, ?_, ?_⟩
  · intro hne
    by_cases h : newer pf.updated stored.updated = true
    · exact h
    · exact absurd (by unfold updateFeedRow; simp [h]) hne
  · intro h
    unfold updateFeedRow
    simp [h]
  · rw [reconcile_feeds, reconcile_feeds, List.map_map]
    exact List.map_congr_left (fun f _ => feedStep_idem pf f)

theorem updateEntryRow_read (stored : Entry) (pe : ParsedEntry) :
    (updateEntryRow stored pe).read = stored.read := by
  unfold updateEntryRow
  split <;> rfl

/-- Claim C3: a stored entry's content fields are overwritten only if
the incoming `updated` is strictly newer (same null rule as feeds);
otherwise the stored row, including its `read` flag, is untouched, so
a read mark survives a re-poll with unchanged or older content, and a
strictly newer re-poll updates content without touching `read`. -/
theorem entry_update_preserves_read (stored : Entry) (pe : ParsedEntry)
    (s : Store) (feedUrl : String) :
    (updateEntryRow stored pe ≠ stored → newer pe.updated stored.updated = true)
    ∧ (newer pe.updated stored.updated = false → updateEntryRow stored pe = stored)
    ∧ (updateEntryRow stored pe).read = stored.read
    ∧ (newer pe.updated stored.updated = true →
        updateEntryRow stored pe =
          { id := stored.id, title := pe.title, link := pe.link,
            updated := pe.updated, read := stored.read })
    ∧ (containsEntry s feedUrl pe.id = true →
        (reconcileEntry s feedUrl pe).entries =
          s.entries.map (fun se =>
            if se.feedUrl == feedUrl && se.entry.id == pe.id then
              { se with entry := updateEntryRow se.entry pe }
            else se)) := by
  refine ⟨?_, ?_, updateEntryRow_read stored pe, ?_, ?_⟩
  · intro hne
    by_cases h : newer pe.updated stored.updated = true
    · exact h
    · exact absurd (by unfold updateEntryRow; simp [h]) hne
  · intro h
    unfold updateEntryRow
    simp [h]
  · intro h
    unfold updateEntryRow
    simp [h]
  · intro h
    unfold reconcileEntry
    simp [h]

theorem setRead_mapper_cond (u i : String) (b : Bool) (se : StoredEntry) :
    let f := fun se : StoredEntry =>
      if se.feedUrl == u && se.entry.id == i then
        { se with entry := { se.entry with read := b } }
      else se
    ((f se).feedUrl == u && (f se).entry.id == i) = (se.feedUrl == u && se.entry.id == i) := by
  by_cases h : (se.feedUrl == u && se.entry.id == i) = true
  · simp [h]
  · simp [h]

theorem setRead_idem (s : Store) (u i : String) (b : Bool) :
    setRead (setRead s u i b) u i b = setRead s u i b := by
  unfold setRead
  simp only [List.map_map]
  refine congrArg _ (List.map_congr_left fun se _ => ?_)
  simp only [Function.comp_apply]
  by_cases h : (se.feedUrl == u && se.entry.id == i) = true
  · simp [h]
  · simp [h]

theorem setRead_noop (s : Store) (u i : String) (b : Bool)
    (h : ∀ se ∈ s.entries,
      (se.feedUrl == u && se.entry.id == i) = true → se.entry.read = b) :
    setRead s u i b = s := by
  unfold setRead
  have : s.entries.map (fun se =>
      if se.feedUrl == u && se.entry.id == i then
        { se with entry := { se.entry with read := b } }
      else se) = s.entries := by
    conv_rhs => rw [← List.map_id s.entries]
    refine List.map_congr_left fun se hmem => ?_
    by_cases hc : (se.feedUrl == u && se.entry.id == i) = true
    · obtain ⟨fu, eid, t, l, up, r⟩ := se
      have hr := h _ hmem hc
      simp only at hr
      simp [hc, hr]
    · simp [hc]
  rw [this]

theorem setRead_sets (s : Store) (u i : String) (b : Bool) :
    ∀ se ∈ (setRead s u i b).entries,
      (se.feedUrl == u && se.entry.id == i) = true → se.entry.read = b := by
  intro se hmem hcond
  unfold setRead at hmem
  simp only [List.mem_map] at hmem
  obtain ⟨x, _, rfl⟩ := hmem
  by_cases h : (x.feedUrl == u && x.entry.id == i) = true
  · simp [h]
  · rw [if_neg h] at hcond
    exact absurd hcond h

/-- Claim C4: for an existing (feed URL, entry id) pair `mark_as_read`
sets `read` to true and `mark_as_unread` sets it to false
unconditionally; repeating either call, or calling it when the flag
already has the target value, is a no-op leaving the stored state
identical; for a missing pair both fail with `EntryNotFoundError`. -/
theorem mark_as_read_unread_spec (s : Store) (u i : String) :
    (containsEntry s u i = true →
      mark_as_read s u i = .ok (setRead s u i true)
      ∧ mark_as_unread s u i = .ok (setRead s u i false))
    ∧ (∀ b, ∀ se ∈ (setRead s u i b).entries,
        (se.feedUrl == u && se.entry.id == i) = true → se.entry.read = b)
    ∧ (∀ b, setRead (setRead s u i b) u i b = setRead s u i b)
    ∧ (∀ b, (∀ se ∈ s.entries,
        (se.feedUrl == u && se.entry.id == i) = true → se.entry.read = b) →
        setRead s u i b = s)
    ∧ (containsEntry s u i = false →
        mark_as_read s u i = .error (.entryNotFound u i)
        ∧ mark_as_unread s u i = .error (.entryNotFound u i)) := by
  refine ⟨?_, setRead_sets s u i, fun b => setRead_idem s u i b, setRead_noop s u i, ?_⟩
  · intro h
    constructor
    · unfold mark_as_read; simp [h]
    · unfold mark_as_unread; simp [h]
  · intro h
    constructor
    · unfold mark_as_read; simp [h]
    · unfold mark_as_unread; simp [h]

theorem get_feed_map_preserving (url pu : String) (pf : ParsedFeed)
    (hne : pu ≠ url) :
    ∀ l : List Feed,
      l.find? (fun f => f.url == url) =
        (l.map (fun f => if f.url == pu then updateFeedRow f pf else f)).find?
          (fun f => f.url == url) := by
  intro l
  induction l with
  | nil => rfl
  | cons f t ih =>
    by_cases hc : (f.url == pu) = true
    · have hfu : f.url = pu := by simpa using hc
      have hpred : (f.url == url) = false := by
        simp [hfu, hne]
      have hpred2 : ((updateFeedRow f pf).url == url) = false := by
        rw [updateFeedRow_url]; exact hpred
      simp only [List.map_cons, hc, if_pos, List.find?_cons, hpred, hpred2]
      exact ih
    · simp only [List.map_cons, hc, Bool.false_eq_true, if_false, List.find?_cons]
      cases hp : (f.url == url) with
      | true => rfl
      | false => exact ih

/-- Claim C5: `get_feed` on a never-added URL returns a not-found
signal (`none`, not an error); from the moment `add_feed(url)` succeeds
the stored Feed row has every non-URL attribute null, it is visible as
such through `get_feed` and `get_feeds`, and it stays untouched by
read-flag mutations and by reconciliations of other feeds. -/
theorem get_feed_lifecycle (s s2 : Store) (url u2 i2 : String) (b : Bool)
    (pf : ParsedFeed) (pes : List ParsedEntry) :
    ((∀ f ∈ s.feeds, f.url ≠ url) → get_feed s url = none)
    ∧ (add_feed s url = .ok s2 →
        get_feed s2 url = some ⟨url, none, none, none⟩
        ∧ ⟨url, none, none, none⟩ ∈ get_feeds s2)
    ∧ get_feed (setRead s u2 i2 b) url = get_feed s url
    ∧ (pf.url ≠ url → get_feed (reconcile s pf pes) url = get_feed s url) := by
  refine ⟨?_, ?_, rfl, ?_⟩
  · intro h
    rw [get_feed, List.find?_eq_none]
    intro f hf
    simp [h f hf]
  · intro h
    unfold add_feed at h
    split at h
    · exact absurd h (by simp)
    · rename_i hany
      have hs2 : s2 = { s with feeds := s.feeds ++ [⟨url, none, none, none⟩] } := by
        cases h; rfl
      subst hs2
      constructor
      · rw [get_feed]
        simp only [List.find?_append]
        have h1 : s.feeds.find? (fun f => f.url == url) = none := by
          rw [List.find?_eq_none]
          intro f hf hb
          exact hany (List.any_eq_true.mpr ⟨f, hf, hb⟩)
        rw [h1]
        simp [List.find?_cons]
      · unfold get_feeds
        simp
  · intro hne
    unfold get_feed
    rw [reconcile_feeds]
    exact (get_feed_map_preserving url pf.url pf hne s.feeds).symm

theorem update_feeds_foldl (parser : String → ParseResult) :
    ∀ (fs : List Feed) (st : Store) (outs : List (String × FeedOutcome)),
      fs.foldl
        (fun acc f =>
          match parser f.url with
          | .ok pf pes => (reconcile acc.1 pf pes, acc.2 ++ [(f.url, .updated)])
          | .notModified => (acc.1, acc.2 ++ [(f.url, .notModified)])
          | .parseError msg => (acc.1, acc.2 ++ [(f.url, .failed msg)]))
        (st, outs) =
      (fs.foldl
        (fun acc f =>
          match parser f.url with
          | .ok pf pes => reconcile acc pf pes
          | _ => acc) st,
       outs ++ fs.map (fun f => (f.url, outcomeOf (parser f.url)))) := by
  intro fs
  induction fs with
  | nil => intro st outs; simp
  | cons f t ih =>
    intro st outs
    rw [List.foldl_cons, List.foldl_cons, List.map_cons]
    cases hp : parser f.url with
    | ok pf pes => rw [ih]; simp [outcomeOf]
    | notModified => rw [ih]; simp [outcomeOf]
    | parseError msg => rw [ih]; simp [outcomeOf]

/-- Claim C6: a per-feed parser failure during `update_feeds` is
captured and recorded as that feed's outcome rather than propagated
(`update_feeds` is a total function whose outcome list covers every
stored feed), and the resulting store is the fold of reconciliations
over exactly the successfully parsed feeds, so every other feed in the
batch is still processed and reconciled. -/
theorem update_feeds_partial_failure (s : Store) (parser : String → ParseResult) :
    (update_feeds s parser).2 = s.feeds.map (fun f => (f.url, outcomeOf (parser f.url)))
    ∧ (update_feeds s parser).1 =
        s.feeds.foldl
          (fun acc f =>
            match parser f.url with
            | .ok pf pes => reconcile acc pf pes
            | _ => acc) s
    ∧ (∀ f ∈ s.feeds, ∀ msg, parser f.url = .parseError msg →
        (f.url, FeedOutcome.failed msg) ∈ (update_feeds s parser).2) := by
  have h := update_feeds_foldl parser s.feeds s []
  have h2 : (update_feeds s parser).2 =
      s.feeds.map (fun f => (f.url, outcomeOf (parser f.url))) := by
    unfold update_feeds
    rw [h]
    simp
  refine ⟨h2, ?_, ?_⟩
  · unfold update_feeds
    rw [h]
  · intro f hf msg hmsg
    rw [h2]
    exact List.mem_map.mpr ⟨f, hf, by rw [hmsg]; rfl⟩

end Reader

namespace Exceptions

theorem strContains_of_mem {a : String} :
    ∀ {l : List String}, a ∈ l → strContains (joinColon l) a := by
  intro l
  induction l with
  | nil => intro h; exact absurd h (List.not_mem_nil a)
  | cons x t ih =>
    intro h
    cases t with
    | nil =>
      have : a = x := by simpa using h
      exact ⟨[], [], by simp [this, joinColon]⟩
    | cons y t2 =>
      rcases List.mem_cons.mp h with rfl | hmem
      · exact ⟨[], (": " ++ joinColon (y :: t2)).data, by
          simp [joinColon, String.data_append]⟩
      · obtain ⟨pre, post, hpp⟩ := ih hmem
        exact ⟨(x ++ ": ").data ++ pre, post, by
          simp [joinColon, String.data_append, hpp]⟩

theorem mem_dropEmpty {a : String} {l : List String} (h : a ∈ l) (hne : a ≠ "") :
    a ∈ dropEmpty l :=
  List.mem_filter.mpr ⟨h, by simp [hne]⟩

theorem strContains_trans {b m s : String}
    (h1 : strContains b m) (h2 : strContains m s) : strContains b s := by
  obtain ⟨p1, q1, e1⟩ := h1
  obtain ⟨p2, q2, e2⟩ := h2
  exact ⟨p1 ++ p2, q2 ++ q1, by simp [e1, e2]⟩

theorem exc_str_contains_part (e : Exc) (part : String)
    (hmem : part ∈ [e.message, e.strAttr, e.causeName, e.causeStr])
    (hne : part ≠ "") : strContains e.str part :=
  strContains_of_mem (mem_dropEmpty hmem hne)

theorem data_pyRepr (s : String) :
    (pyRepr s).data = quoteChar :: s.data ++ [quoteChar] := by
  simp [pyRepr, String.singleton, String.data_append]

theorem strContains_pyRepr (s : String) : strContains (pyRepr s) s :=
  ⟨[quoteChar], [quoteChar], by simp [data_pyRepr]⟩

theorem pyRepr_ne_empty (s : String) : pyRepr s ≠ "" := by
  intro h
  have := congrArg String.data h
  rw [data_pyRepr] at this
  simp at this

theorem strContains_pyReprPair_left (a b : String) :
    strContains (pyReprPair a b) a := by
  refine strContains_trans ?_ (strContains_pyRepr a)
  exact ⟨"(".data, (", " ++ pyRepr b ++ ")").data, by
    simp [pyReprPair, String.data_append]⟩

theorem strContains_pyReprPair_right (a b : String) :
    strContains (pyReprPair a b) b := by
  refine strContains_trans ?_ (strContains_pyRepr b)
  exact ⟨("(" ++ pyRepr a ++ ", ").data, ")".data, by
    simp [pyReprPair, String.data_append]⟩

theorem pyReprPair_ne_empty (a b : String) : pyReprPair a b ≠ "" := by
  intro h
  have := congrArg String.data h
  simp [pyReprPair, String.data_append] at this

end Exceptions

namespace Exceptions

theorem strContains_ne_empty {b s : String}
    (h : strContains b s) (hs : s ≠ "") : b ≠ "" := by
  intro hb
  obtain ⟨pre, post, hd⟩ := h
  rw [hb] at hd
  have h0 : pre = [] ∧ s.data = [] ∧ post = [] := by simpa using hd.symm
  exact hs (String.ext h0.2.1)

theorem tagStr_contains_key (rid : List String) (key : String) :
    strContains (tagStr rid key) (pyRepr key) := by
  unfold tagStr
  exact strContains_of_mem
    (List.mem_map.mpr ⟨key, List.mem_append.mpr (Or.inr (by simp)), rfl⟩)

/-- Claim C7 (counterexample): `ParseError` is a public exception of the
engine whose class defines no message; constructed the way the engine
raises it (URL plus chained cause, no construction-time message), its
string form carries no human-readable message at all. -/
theorem parse_error_str_has_no_message :
    ¬ includesHumanMessage
      (ParseError "http://example.com/feed.xml" ""
        (some ⟨"builtins.Exception", "boom"⟩)) := by
  intro h
  exact h.1 (by decide)

/-- Claim C7 (amended): every public exception's string form includes
its effective message whenever that message is non-empty (the concrete
leaf classes define one, but `ParseError` and `StorageError` default to
an empty message), includes the identity of the resource involved —
the feed URL for feed errors, both components of the (feed URL,
entry id) pair for entry errors, and every resource-id component plus
the key for tag errors — for identity strings that Python's `repr`
renders verbatim, and, when chained from a cause, includes the cause's
type name and message whenever non-empty. -/
theorem exception_str_form (url fu id key msg : String) (rid : List String)
    (c : Cause) (co : Option Cause) :
    (∀ e : Exc, e.message ≠ "" → strContains e.str e.message)
    ∧ (reprPlain url → strContains (FeedError url msg co).str url)
    ∧ (reprPlain url → strContains (FeedExistsError url msg co).str url)
    ∧ (reprPlain url → strContains (FeedNotFoundError url msg co).str url)
    ∧ (reprPlain url → strContains (InvalidFeedURLError url msg co).str url)
    ∧ (reprPlain url → strContains (ParseError url msg co).str url)
    ∧ (reprPlain fu → strContains (EntryError fu id msg co).str fu)
    ∧ (reprPlain id → strContains (EntryError fu id msg co).str id)
    ∧ (reprPlain fu → strContains (EntryExistsError fu id msg co).str fu)
    ∧ (reprPlain id → strContains (EntryExistsError fu id msg co).str id)
    ∧ (reprPlain fu → strContains (EntryNotFoundError fu id msg co).str fu)
    ∧ (reprPlain id → strContains (EntryNotFoundError fu id msg co).str id)
    ∧ (reprPlain key → strContains (TagError key rid msg co).str key)
    ∧ (reprPlain key → strContains (TagNotFoundError key rid msg co).str key)
    ∧ (∀ r ∈ rid, reprPlain r → strContains (TagError key rid msg co).str r)
    ∧ (∀ r ∈ rid, reprPlain r → strContains (TagNotFoundError key rid msg co).str r)
    ∧ (∀ e : Exc, e.cause = some c → c.typeName ≠ "" → strContains e.str c.typeName)
    ∧ (∀ e : Exc, e.cause = some c → c.str ≠ "" → strContains e.str c.str)
    ∧ (FeedExistsError url "" co).message = "feed exists"
    ∧ (FeedNotFoundError url "" co).message = "no such feed"
    ∧ (EntryNotFoundError fu id "" co).message = "no such entry"
    ∧ (TagNotFoundError key rid "" co).message = "no such tag" := by
  have hmsg : ∀ e : Exc, e.message ≠ "" → strContains e.str e.message := by
    intro e hne
    exact exc_str_contains_part e e.message (by simp) hne
  have hattr : ∀ e : Exc, e.strAttr ≠ "" → strContains e.str e.strAttr := by
    intro e hne
    exact exc_str_contains_part e e.strAttr (by simp) hne
  have hfeed : ∀ cm : String,
      strContains (Exc.str ⟨cm, msg, pyRepr url, co⟩) url := by
    intro cm
    exact strContains_trans
      (hattr ⟨cm, msg, pyRepr url, co⟩ (pyRepr_ne_empty url))
      (strContains_pyRepr url)
  have hentl : ∀ cm : String,
      strContains (Exc.str ⟨cm, msg, pyReprPair fu id, co⟩) fu := by
    intro cm
    exact strContains_trans
      (hattr ⟨cm, msg, pyReprPair fu id, co⟩ (pyReprPair_ne_empty fu id))
      (strContains_pyReprPair_left fu id)
  have hentr : ∀ cm : String,
      strContains (Exc.str ⟨cm, msg, pyReprPair fu id, co⟩) id := by
    intro cm
    exact strContains_trans
      (hattr ⟨cm, msg, pyReprPair fu id, co⟩ (pyReprPair_ne_empty fu id))
      (strContains_pyReprPair_right fu id)
  have htagne : tagStr rid key ≠ "" :=
    strContains_ne_empty (tagStr_contains_key rid key) (pyRepr_ne_empty key)
  have htagmem : ∀ cm r : String, r ∈ rid ++ [key] →
      strContains (Exc.str ⟨cm, msg, tagStr rid key, co⟩) r := by
    intro cm r hr
    have h1 : strContains (tagStr rid key) (pyRepr r) := by
      unfold tagStr
      exact strContains_of_mem (List.mem_map.mpr ⟨r, hr, rfl⟩)
    exact strContains_trans
      (strContains_trans (hattr ⟨cm, msg, tagStr rid key, co⟩ htagne) h1)
      (strContains_pyRepr r)
  have hkeymem : key ∈ rid ++ [key] := List.mem_append.mpr (Or.inr (by simp))
  refine ⟨hmsg, fun _ => hfeed "", fun _ => hfeed "feed exists",
    fun _ => hfeed "no such feed", fun _ => hfeed "invalid feed URL",
    fun _ => hfeed "", fun _ => hentl "", fun _ => hentr "",
    fun _ => hentl "entry exists", fun _ => hentr "entry exists",
    fun _ => hentl "no such entry", fun _ => hentr "no such entry",
    fun _ => htagmem "" key hkeymem, fun _ => htagmem "no such tag" key hkeymem,
    fun r hr _ => htagmem "" r (List.mem_append.mpr (Or.inl hr)),
    fun r hr _ => htagmem "no such tag" r (List.mem_append.mpr (Or.inl hr)),
    ?_, ?_, rfl, rfl, rfl, rfl⟩
  · intro e he hne
    have : e.causeName = c.typeName := by
      unfold Exc.causeName
      rw [he]
    exact this ▸ exc_str_contains_part e e.causeName (by simp) (this ▸ hne)
  · intro e he hne
    have : e.causeStr = c.str := by
      unfold Exc.causeStr
      rw [he]
    exact this ▸ exc_str_contains_part e e.causeStr (by simp) (this ▸ hne)

/-- Witness for the amended claim C7 at concrete exceptions: a
`FeedExistsError` with a chained cause includes its class message, the
URL and the cause type name in its string form, and a
`TagNotFoundError` includes both its resource-id component and its
key. -/
theorem exception_str_form_witness :
    strContains (FeedExistsError "http://e.com/feed" "" (some ⟨"builtins.OSError", "disk"⟩)).str
      (FeedExistsError "http://e.com/feed" "" (some ⟨"builtins.OSError", "disk"⟩)).message
    ∧ strContains (FeedExistsError "http://e.com/feed" "" (some ⟨"builtins.OSError", "disk"⟩)).str
      "http://e.com/feed"
    ∧ strContains (FeedExistsError "http://e.com/feed" "" (some ⟨"builtins.OSError", "disk"⟩)).str
      "builtins.OSError"
    ∧ strContains (TagNotFoundError "k" ["http://f.com"] "" (some ⟨"builtins.OSError", "disk"⟩)).str
      "http://f.com"
    ∧ strContains (TagNotFoundError "k" ["http://f.com"] "" (some ⟨"builtins.OSError", "disk"⟩)).str
      "k" := by
  have h := exception_str_form "http://e.com/feed" "fu" "1" "k" "" ["http://f.com"]
    ⟨"builtins.OSError", "disk"⟩ (some ⟨"builtins.OSError", "disk"⟩)
  obtain ⟨hm, hf1, hf2, hf3, hf4, hf5, he1, he2, he3, he4, he5, he6,
    ht1, ht2, htr1, htr2, hcn, hcs, hd1, hd2, hd3, hd4⟩ := h
  refine ⟨?_, ?_, ?_, ?_, ?_⟩
  · exact hm (FeedExistsError "http://e.com/feed" "" (some ⟨"builtins.OSError", "disk"⟩))
      (by decide)
  · exact hf2 (by decide)
  · exact hcn (FeedExistsError "http://e.com/feed" "" (some ⟨"builtins.OSError", "disk"⟩))
      rfl (by decide)
  · exact htr2 "http://f.com" (by simp) (by decide)
  · exact ht2 (by decide)

end Exceptions

namespace Feedparser

/-- Claim C8: `_parse_file_inplace` selects exactly one parse path per
attempt — the JSON parser when the content type is
`application/json`; otherwise the strict parser exactly when an
encoding was detected, falling back to the loose parser (and setting
bozo) when the strict parse fails; and the loose parser directly when
no encoding was detected and the content type is not JSON. -/
theorem parser_path_selection (i : ParseFileInput) :
    (i.contentType = "application/json" →
      (parseFileInplace i).1 = [ParserPath.json])
    ∧ (i.contentType ≠ "application/json" → i.encoding ≠ "" →
        i.strictParseFails = false →
        parseFileInplace i = ([ParserPath.strict], false))
    ∧ (i.contentType ≠ "application/json" → i.encoding ≠ "" →
        i.strictParseFails = true →
        parseFileInplace i = ([ParserPath.strict, ParserPath.loose], true))
    ∧ (i.contentType ≠ "application/json" → i.encoding = "" →
        parseFileInplace i = ([ParserPath.loose], false)) := by
  refine ⟨?_, ?_, ?_, ?_⟩
  · intro h
    unfold parseFileInplace
    simp [h]
  · intro h he hs
    unfold parseFileInplace
    simp [h, he, hs, xmlAvailable]
  · intro h he hs
    unfold parseFileInplace
    simp [h, he, hs, xmlAvailable]
  · intro h he
    unfold parseFileInplace
    simp [h, he, xmlAvailable]

/-- Witness for claim C8 at concrete inputs: a JSON content type takes
the JSON path; a detected encoding with a failing strict parse falls
back to the loose parser with bozo set. -/
theorem parser_path_selection_witness :
    (parseFileInplace ⟨"application/json", "utf-8", false, false, "e"⟩).1 =
      [ParserPath.json]
    ∧ parseFileInplace ⟨"text/xml", "utf-8", true, false, "e"⟩ =
      ([ParserPath.strict, ParserPath.loose], true)
    ∧ parseFileInplace ⟨"text/xml", "", false, false, "e"⟩ =
      ([ParserPath.loose], false) := by
  refine ⟨?_, ?_, ?_⟩
  · exact (parser_path_selection ⟨"application/json", "utf-8", false, false, "e"⟩).1 rfl
  · exact (parser_path_selection ⟨"text/xml", "utf-8", true, false, "e"⟩).2.2.1
      (by decide) (by decide) rfl
  · exact (parser_path_selection ⟨"text/xml", "", false, false, "e"⟩).2.2.2
      (by decide) rfl

/-- Claim C10: `parse` returns normally rather than raising — on a URL
retrieval error it returns a result with bozo true and the original
error attached as `bozo_exception`, and on empty input it returns a
result with bozo false, an empty entry list and an empty feed snapshot
without invoking any parse path. -/
theorem parse_error_and_empty_input (e : String) (i i2 : ParseFileInput)
    (out out2 : ParserOutputs) :
    parse (.urlError e) i out =
      { bozo := true, bozoException := some e, entries := [], feed := [],
        pathsInvoked := [] }
    ∧ parse (.opened "") i2 out2 =
      { bozo := false, bozoException := none, entries := [], feed := [],
        pathsInvoked := [] } := by
  constructor
  · rfl
  · unfold parse
    simp [String.isEmpty]

end Feedparser

namespace Reader

theorem toKey_eq_urlid {a b : Feed × Entry} (h : toKey a = toKey b) :
    (a.1.url, a.2.id) = (b.1.url, b.2.id) := by
  have h2 := congrArg (fun k : EntryKey => ofLex (ofLex k).2) h
  exact h2

theorem pairs_map_urlid (s : Store) :
    ∀ l : List StoredEntry,
      (∀ se ∈ l, (get_feed s se.feedUrl).isSome) →
      (l.filterMap (fun se => (get_feed s se.feedUrl).map (fun f => (f, se.entry)))).map
          (fun p => (p.1.url, p.2.id)) =
        l.map (fun se => (se.feedUrl, se.entry.id)) := by
  intro l
  induction l with
  | nil => intro _; rfl
  | cons se t ih =>
    intro h
    have hsome := h se (List.mem_cons_self se t)
    obtain ⟨f, hf⟩ := Option.isSome_iff_exists.mp hsome
    have hurl : f.url = se.feedUrl := by
      have := List.find?_some hf
      simpa using this
    rw [List.filterMap_cons, hf]
    simp [hurl, ih (fun x hx => h x (List.mem_cons_of_mem se hx))]

theorem nodup_keys_of_wf (s : Store) (hwf : s.wf) :
    (s.pairs.map toKey).Nodup := by
  have hurlid : (s.pairs.map (fun p => (p.1.url, p.2.id))).Nodup := by
    rw [Store.pairs, pairs_map_urlid s s.entries hwf.2.2]
    exact hwf.2.1
  rw [List.Nodup, List.pairwise_map] at hurlid ⊢
  exact hurlid.imp (fun h hk => h (toKey_eq_urlid hk))

theorem sortedPairs_pairwise_lt (s : Store) (hwf : s.wf) :
    (sortedPairs s).Pairwise pairLt := by
  have hsorted : List.Sorted pairLe (sortedPairs s) :=
    List.sorted_insertionSort pairLe s.pairs
  have hperm : List.Perm (sortedPairs s) s.pairs := List.perm_insertionSort pairLe s.pairs
  have hnodup : ((sortedPairs s).map toKey).Nodup :=
    ((hperm.map toKey).nodup_iff).mpr (nodup_keys_of_wf s hwf)
  rw [List.Nodup, List.pairwise_map] at hnodup
  have := (List.Pairwise.and hsorted hnodup)
  exact this.imp (fun h => lt_of_le_of_ne h.1 h.2)

theorem filter_after_last_take (l : List (Feed × Entry))
    (hs : l.Pairwise pairLt) (n : Nat) (p : Feed × Entry)
    (hp : (l.take n).getLast? = some p) :
    l.filter (afterKey (some (toKey p))) = l.drop n := by
  have hpt : p ∈ l.take n := List.mem_of_getLast?_eq_some hp
  have h1 : (l.take n).filter (afterKey (some (toKey p))) = [] := by
    rw [List.filter_eq_nil_iff]
    intro x hx
    have hst : (l.take n).Pairwise pairLt := List.Pairwise.sublist (List.take_sublist n l) hs
    have hdecomp : (l.take n).dropLast ++ [p] = l.take n :=
      List.dropLast_append_getLast? p hp
    rcases List.mem_append.mp (hdecomp ▸ hx) with hx1 | hx2
    · have hlt : pairLt x p := by
        have := hdecomp ▸ hst
        rcases List.pairwise_append.mp this with ⟨_, _, hcross⟩
        exact hcross x hx1 p (by simp)
      simp only [afterKey, decide_eq_true_eq]
      exact fun hcon => absurd hcon (not_lt_of_gt hlt)
    · have hxp : x = p := by simpa using hx2
      subst hxp
      simp [afterKey]
  have h2 : (l.drop n).filter (afterKey (some (toKey p))) = l.drop n := by
    rw [List.filter_eq_self]
    intro x hx
    have hlt : pairLt p x :=
      List.Sorted.rel_of_mem_take_of_mem_drop hs hpt hx
    simp only [afterKey, decide_eq_true_eq]
    exact hlt
  calc l.filter (afterKey (some (toKey p)))
      = (l.take n ++ l.drop n).filter (afterKey (some (toKey p))) := by
        rw [List.take_append_drop]
    _ = [] ++ l.drop n := by rw [List.filter_append, h1, h2]
    _ = l.drop n := by simp

end Reader

namespace Reader

theorem getEntriesChunked_eq (s : Store) (hs : (sortedPairs s).Pairwise pairLt)
    (n : Nat) (hn : 0 < n) :
    ∀ (fuel : Nat) (cur : Option EntryKey),
      ((sortedPairs s).filter (afterKey cur)).length ≤ fuel →
      getEntriesChunked s n cur fuel = (sortedPairs s).filter (afterKey cur) := by
  intro fuel
  induction fuel with
  | zero =>
    intro cur hlen
    have h0 : (sortedPairs s).filter (afterKey cur) = [] :=
      List.length_eq_zero.mp (Nat.le_zero.mp hlen)
    rw [h0]
    rfl
  | succ fuel ih =>
    intro cur hlen
    have hchunk : getChunk s cur n = ((sortedPairs s).filter (afterKey cur)).take n := rfl
    by_cases hlt : (getChunk s cur n).length < n
    · have hrlen : ((sortedPairs s).filter (afterKey cur)).length < n := by
        have hlt2 := hlt
        rw [hchunk, List.length_take] at hlt2
        omega
      simp only [getEntriesChunked]
      rw [if_pos hlt, hchunk]
      exact List.take_of_length_le (le_of_lt hrlen)
    · have hlen_take : (getChunk s cur n).length = n := by
        rw [hchunk, List.length_take]
        rw [hchunk, List.length_take] at hlt
        omega
      have hne : getChunk s cur n ≠ [] := by
        intro hnil
        rw [hnil] at hlen_take
        simp at hlen_take
        omega
      obtain ⟨p, hp⟩ : ∃ p, (getChunk s cur n).getLast? = some p :=
        ⟨_, List.getLast?_eq_getLast _ hne⟩
      have hpmem : p ∈ (sortedPairs s).filter (afterKey cur) := by
        have h1 : p ∈ getChunk s cur n := List.mem_of_getLast?_eq_some hp
        rw [hchunk] at h1
        exact (List.take_sublist n _).subset h1
      have hcurp : afterKey cur p = true := (List.mem_filter.mp hpmem).2
      have hbridge : (sortedPairs s).filter (afterKey (some (toKey p))) =
          ((sortedPairs s).filter (afterKey cur)).filter (afterKey (some (toKey p))) := by
        rw [List.filter_filter]
        refine List.filter_congr ?_
        intro x hx
        cases cur with
        | none => simp [afterKey]
        | some k0 =>
          have hk0 : k0 < toKey p := by simpa [afterKey] using hcurp
          by_cases hax : toKey p < toKey x
          · simp [afterKey, hax, lt_trans hk0 hax]
          · simp [afterKey, hax]
      have hfiltPairwise : ((sortedPairs s).filter (afterKey cur)).Pairwise pairLt :=
        List.Pairwise.sublist (List.filter_sublist _) hs
      have hstep :
          ((sortedPairs s).filter (afterKey cur)).filter (afterKey (some (toKey p))) =
            ((sortedPairs s).filter (afterKey cur)).drop n :=
        filter_after_last_take _ hfiltPairwise n p hp
      have hihlen : ((sortedPairs s).filter (afterKey (some (toKey p)))).length ≤ fuel := by
        rw [hbridge, hstep, List.length_drop]
        omega
      have hih := ih (some (toKey p)) hihlen
      simp only [getEntriesChunked]
      rw [if_neg hlt, hp]
      show getChunk s cur n ++ getEntriesChunked s n (some (toKey p)) fuel =
        (sortedPairs s).filter (afterKey cur)
      rw [hih, hbridge, hstep, hchunk]
      exact List.take_append_drop n _

theorem get_entries_eq_sorted (s : Store) (hwf : s.wf) (n : Nat) :
    get_entries s n = sortedPairs s := by
  unfold get_entries
  by_cases h0 : n = 0
  · simp [h0]
  · rw [if_neg h0]
    have hs := sortedPairs_pairwise_lt s hwf
    have hfilter : (sortedPairs s).filter (afterKey none) = sortedPairs s :=
      List.filter_eq_self.mpr (fun a _ => rfl)
    have hlen : ((sortedPairs s).filter (afterKey none)).length ≤ s.pairs.length + 1 := by
      rw [hfilter]
      have hpl := (List.perm_insertionSort pairLe s.pairs).length_eq
      rw [sortedPairs]
      omega
    rw [getEntriesChunked_eq s hs n (Nat.pos_of_ne_zero h0) _ none hlen, hfilter]

/-- Claim C1: over a well-formed store and with no intervening writes,
`get_entries` returns the `(Feed, Entry)` pairs in the deterministic
total order `(updated DESC, feed_url ASC, entry_id ASC)` — even when
`updated` values collide, since the key includes the identities — and
the result is identical across every chunk size, including 0
(unchunked), and is a permutation of exactly the stored pairs. -/
theorem get_entries_order_deterministic (s : Store) (hwf : s.wf) (n m : Nat) :
    get_entries s n = get_entries s m
    ∧ get_entries s n = sortedPairs s
    ∧ List.Sorted pairLe (get_entries s n)
    ∧ List.Perm (get_entries s n) s.pairs := by
  have h1 := get_entries_eq_sorted s hwf n
  have h2 := get_entries_eq_sorted s hwf m
  refine ⟨h1.trans h2.symm, h1, ?_, ?_⟩
  · rw [h1]
    exact List.sorted_insertionSort pairLe s.pairs
  · rw [h1]
    exact List.perm_insertionSort pairLe s.pairs

/-- Witness for claim C1: the concrete store with colliding `updated`
values is well-formed, and its listing agrees between chunk size 2 and
the unchunked query. -/
theorem get_entries_order_witness :
    demoStore.wf
    ∧ (get_entries demoStore 2 = get_entries demoStore 0
      ∧ get_entries demoStore 2 = sortedPairs demoStore
      ∧ List.Sorted pairLe (get_entries demoStore 2)
      ∧ List.Perm (get_entries demoStore 2) demoStore.pairs) :=
  ⟨by decide, get_entries_order_deterministic demoStore (by decide) 2 0⟩

end Reader

namespace Reader

/-- Witness for claim C2 at concrete timestamps: a snapshot dated 2
against a stored feed dated 1 is strictly newer, so the row changing
implies newness. -/
theorem feed_update_monotonic_witness :
    newer (some 2) (some 1) = true := by
  have h := feed_update_monotonic ⟨"a", none, none, some 1⟩
    ⟨"a", some "T", none, some 2⟩ demoStore []
  exact h.1 (by decide)

/-- Witness for claim C3 at a concrete entry: a strictly newer re-poll
replaces the content fields while keeping the `read` mark. -/
theorem entry_update_preserves_read_witness :
    updateEntryRow ⟨"1", none, none, some 1, true⟩ ⟨"1", some "N", none, some 2⟩ =
      ⟨"1", some "N", none, some 2, true⟩ := by
  have h := entry_update_preserves_read ⟨"1", none, none, some 1, true⟩
    ⟨"1", some "N", none, some 2⟩ demoStore "a"
  exact h.2.2.2.1 (by decide)

/-- Witness for claim C4 at the concrete store: entry ("a", "1") exists,
so marking it read succeeds with the flag set. -/
theorem mark_as_read_unread_witness :
    mark_as_read demoStore "a" "1" = .ok (setRead demoStore "a" "1" true)
    ∧ mark_as_read ⟨[], []⟩ "a" "1" = .error (.entryNotFound "a" "1") := by
  refine ⟨((mark_as_read_unread_spec demoStore "a" "1").1 (by decide)).1, ?_⟩
  exact ((mark_as_read_unread_spec ⟨[], []⟩ "a" "1").2.2.2.2 (by decide)).1

/-- Witness for claim C5 at concrete stores: an empty store reports
not-found, and a freshly added feed shows all non-URL fields null. -/
theorem get_feed_lifecycle_witness :
    get_feed ⟨[], []⟩ "u" = none
    ∧ get_feed ⟨[⟨"u", none, none, none⟩], []⟩ "u" = some ⟨"u", none, none, none⟩ := by
  have h := get_feed_lifecycle ⟨[], []⟩ ⟨[⟨"u", none, none, none⟩], []⟩ "u" "x" "y"
    true ⟨"p", none, none, none⟩ []
  exact ⟨h.1 (by simp), (h.2.1 (by rfl)).1⟩

/-- Witness for claim C6 at the concrete store: with a parser that
fails on feed "a", the failure is recorded in the outcome list. -/
theorem update_feeds_partial_failure_witness :
    ("a", FeedOutcome.failed "boom") ∈
      (update_feeds demoStore
        (fun u => if u == "a" then ParseResult.parseError "boom"
          else ParseResult.ok ⟨"b", none, none, some 7⟩ [])).2 := by
  have h := update_feeds_partial_failure demoStore
    (fun u => if u == "a" then ParseResult.parseError "boom"
      else ParseResult.ok ⟨"b", none, none, some 7⟩ [])
  exact h.2.2 ⟨"a", some "Feed A", none, some 6⟩ (by simp [demoStore]) "boom" rfl

end Reader
